import Mathlib

/-!  Verification of the zarr group-hierarchy layer (`zarr/hierarchy.py`) and the v3
`open_auto` entry point (`src/zarr/__init__.py`), embedded shallowly over an abstract
key-to-metadata store.  Strings are manipulated at the character-list level so that
every operation evaluates by kernel reduction.  Helpers imported by `hierarchy.py` from
`zarr.storage`, `zarr.util`, `zarr.creation` and `zarr.core` are not among the source
files; each such definition is marked `Modelled from the spec:` below. -/

deriving instance DecidableEq for Except

/-- Lexicographic comparison of character lists by code point, the order Python uses to
compare strings; defined structurally so that it evaluates by kernel reduction. -/
def charListLe : List Char → List Char → Bool
  | [], _ => true
  | _ :: _, [] => false
  | a :: as, b :: bs => if a = b then charListLe as bs else decide (a < b)

/-- Lexicographic order on strings (Python string comparison). -/
def strLe (a b : String) : Bool := charListLe a.data b.data

/-- Embedding of Python `str.split('/')` at the character level. -/
def splitSeg : List Char → List (List Char)
  | [] => [[]]
  | c :: cs =>
    if c = '/' then [] :: splitSeg cs
    else
      match splitSeg cs with
      | s :: ss => (c :: s) :: ss
      | [] => [[c]]

/-- Embedding of Python `'/'.join(...)` at the character level. -/
def joinSeg : List (List Char) → List Char
  | [] => []
  | [s] => s
  | s :: ss => s ++ '/' :: joinSeg ss

/-- Embedding of Python `path.split('/')`. -/
def strSplit (s : String) : List String := (splitSeg s.data).map String.mk

/-- Embedding of Python `'/'.join(segments)`. -/
def joinSlash (l : List String) : String := String.mk (joinSeg (l.map String.data))

/-- Modelled from the spec: path normalization (§3 Path): collapse repeated slashes and
strip leading and trailing slashes; the root is the empty string.  This embeds
`zarr.util.normalize_storage_path`, which is not among the source files. -/
def normalize_storage_path (p : String) : String :=
  String.mk (joinSeg ((splitSeg p.data).filter (fun seg => !seg.isEmpty)))

/-- Primitive numeric data types (spec §6); a closed representative set. -/
inductive Dtype
  | i8 | i16 | i32 | i64 | u8 | f32 | f64
deriving DecidableEq

/-- Metadata document stored under a sentinel key; only the fields the hierarchy layer
reads are represented (spec §3, §4.4). -/
inductive StoreVal
  | groupMeta
  | arrayMeta (shape : List Nat) (dtype : Dtype)
  | other
deriving DecidableEq

/-- A store is an association list from keys to metadata documents (spec §4.1). -/
abbrev Store := List (String × StoreVal)

/-- Lookup, the embedding of `store[key]`. -/
def storeGet : Store → String → Option StoreVal
  | [], _ => none
  | (k, v) :: t, q => if k = q then some v else storeGet t q

/-- Overwriting update, the embedding of `store[key] = value`. -/
def storeSet (s : Store) (k : String) (v : StoreVal) : Store :=
  (k, v) :: s.filter (fun e => e.1 != k)

/-- Modelled from the spec: the v2 array metadata sentinel name (§6). -/
def array_meta_key : String := ".zarray"

/-- Modelled from the spec: the v2 group metadata sentinel name (§6). -/
def group_meta_key : String := ".zgroup"

/-- Key namespace of a node path: empty for the root, otherwise the path followed by a
slash (spec §3 Node kind: sentinel keys live at `<path>/<sentinel>`). -/
def pathPfx (p : String) : String := if p = "" then "" else p ++ "/"

/-- Store key of the array sentinel of a path. -/
def arrayKeyOf (p : String) : String := pathPfx p ++ array_meta_key

/-- Store key of the group sentinel of a path. -/
def groupKeyOf (p : String) : String := pathPfx p ++ group_meta_key

/-- Modelled from the spec: `zarr.storage.contains_array` (§3 Node kind): a store prefix
is an array if the array sentinel key exists under the normalized path. -/
def contains_array (s : Store) (p : String) : Bool :=
  (storeGet s (arrayKeyOf (normalize_storage_path p))).isSome

/-- Modelled from the spec: `zarr.storage.contains_group` (§3 Node kind). -/
def contains_group (s : Store) (p : String) : Bool :=
  (storeGet s (groupKeyOf (normalize_storage_path p))).isSome

/-- Modelled from the spec: `zarr.storage.init_group` (§3 Lifecycle): write the group
metadata sentinel at the normalized path. -/
def init_group (s : Store) (p : String) : Store :=
  storeSet s (groupKeyOf (normalize_storage_path p)) .groupMeta

/-- Modelled from the spec: array initialization as performed by `zarr.creation`
(§3 Lifecycle, §4.6): write the array metadata sentinel carrying shape and dtype. -/
def init_array (s : Store) (p : String) (shape : List Nat) (dtype : Dtype) : Store :=
  storeSet s (arrayKeyOf (normalize_storage_path p)) (.arrayMeta shape dtype)

/-- Modelled from the spec: `zarr.storage.listdir` (§4.1 `list_dir`): the immediate child
names under a path, both child keys and child prefixes, without duplicates. -/
def listdir (s : Store) (path : String) : List String :=
  let pfx := pathPfx (normalize_storage_path path)
  ((s.map Prod.fst).filterMap (fun k =>
    if pfx.data.isPrefixOf k.data && k != pfx then
      some (String.mk ((k.data.drop pfx.data.length).takeWhile (fun c => c != '/')))
    else none)).dedup

/-- Error kinds raised by the hierarchy layer (spec §7). -/
inductive Err
  | keyError | valueError | typeError | readOnlyError
deriving DecidableEq

/-- A group handle: storage path plus read-only flag; the store is threaded explicitly
through every operation (handles share the store, hierarchy.py:70-78). -/
structure ZGroup where
  path : String
  readonly : Bool
deriving DecidableEq

/-- An array handle (zarr.core.Array, not among the source files): path, read-only flag
and the metadata fields `require_dataset` consults. -/
structure ZArray where
  path : String
  readonly : Bool
  shape : List Nat
  dtype : Dtype
deriving DecidableEq

/-- Embedding of `Group.__init__` (hierarchy.py:70): normalize the path, raise
`ValueError` if the store contains an array there, raise `ValueError` if the group
metadata sentinel is missing, otherwise produce the handle.  Metadata decoding is assumed
to succeed (`decode_group_metadata` is not among the source files; spec §4.4 only uses
`attributes`). -/
def group_open (s : Store) (path : String) (ro : Bool) : Except Err ZGroup :=
  let p := normalize_storage_path path
  if contains_array s p then .error .valueError
  else if contains_group s p then .ok { path := p, readonly := ro }
  else .error .valueError

/-- Modelled from the spec: `zarr.core.Array` construction (§3, §4.4): read the array
metadata sentinel at the normalized path; fail if it is absent or not array metadata. -/
def zarray_open (s : Store) (path : String) (ro : Bool) : Except Err ZArray :=
  match storeGet s (arrayKeyOf (normalize_storage_path path)) with
  | some (.arrayMeta sh dt) =>
      .ok { path := normalize_storage_path path, readonly := ro, shape := sh, dtype := dt }
  | _ => .error .valueError

/-- Embedding of `Group._item_path` (hierarchy.py:192): absolute names (leading slash)
are normalized as given; relative names are normalized and appended to the group's
path. -/
def item_path (g : ZGroup) (item : String) : String :=
  match item.data with
  | '/' :: _ => normalize_storage_path item
  | _ =>
    let path := normalize_storage_path item
    if g.path = "" then path else g.path ++ "/" ++ path

/-- Loop shared by `Group.create_group` (hierarchy.py:372) and
`Group._require_parent_group` (hierarchy.py:436): for each index `i`, the prefix joining
the first `i` segments must not contain an array (else `KeyError`), and a group is
initialized there when missing. -/
def ensure_chain (segs : List String) : Store → List Nat → Store × Except Err Unit
  | s, [] => (s, .ok ())
  | s, i :: rest =>
    let p := joinSlash (segs.take i)
    if contains_array s p then (s, .error .keyError)
    else if contains_group s p then ensure_chain segs s rest
    else ensure_chain segs (init_group s p) rest

/-- Loop of `Group.require_group` (hierarchy.py:419): like `ensure_chain` but covering
the terminal prefix as well, and checking the read-only flag before initializing. -/
def ensure_chain_ro (ro : Bool) (segs : List String) :
    Store → List Nat → Store × Except Err Unit
  | s, [] => (s, .ok ())
  | s, i :: rest =>
    let p := joinSlash (segs.take i)
    if contains_array s p then (s, .error .keyError)
    else if contains_group s p then ensure_chain_ro ro segs s rest
    else if ro then (s, .error .readOnlyError)
    else ensure_chain_ro ro segs (init_group s p) rest

/-- Embedding of `Group.create_group` (hierarchy.py:344). -/
def create_group (g : ZGroup) (s : Store) (name : String) : Store × Except Err ZGroup :=
  if g.readonly then (s, .error .readOnlyError)
  else
    let path := item_path g name
    let segments := strSplit path
    match ensure_chain segments s (List.range segments.length) with
    | (s1, .error e) => (s1, .error e)
    | (s1, .ok _) =>
      if contains_array s1 path then (s1, .error .keyError)
      else if contains_group s1 path then (s1, .error .keyError)
      else
        let s2 := init_group s1 path
        match group_open s2 path g.readonly with
        | .ok h => (s2, .ok h)
        | .error e => (s2, .error e)

/-- Embedding of `Group.require_group` (hierarchy.py:393). -/
def require_group (g : ZGroup) (s : Store) (name : String) : Store × Except Err ZGroup :=
  let path := item_path g name
  let segments := strSplit path
  match ensure_chain_ro g.readonly segments s (List.range (segments.length + 1)) with
  | (s1, .error e) => (s1, .error e)
  | (s1, .ok _) =>
    match group_open s1 path g.readonly with
    | .ok h => (s1, .ok h)
    | .error e => (s1, .error e)

/-- Embedding of `Group._require_parent_group` (hierarchy.py:435). -/
def require_parent_group (s : Store) (path : String) : Store × Except Err Unit :=
  let segments := strSplit path
  ensure_chain segments s (List.range segments.length)

/-- Shape argument of the dataset-creation methods: "int or tuple of ints"
(hierarchy.py:456). -/
inductive ShapeArg
  | one (n : Nat)
  | many (l : List Nat)
deriving DecidableEq

/-- Modelled from the spec: `zarr.util.normalize_shape` (hierarchy.py:456 "shape : int or
tuple of ints"): promote an integer to a one-tuple.  `zarr.util` is not among the source
files. -/
def normalize_shape : ShapeArg → List Nat
  | .one n => [n]
  | .many l => l

/-- Modelled from the spec: `zarr.creation.create` and its variants, none of which are
among the source files (spec §4.6 `create_array`: "ensure terminal is absent; init
array"; §7 `AlreadyExists`): fail if the path already holds a node, else write the array
metadata and return a fresh writable array handle.  Fill value, chunking and compression
options do not affect the modelled store content. -/
def creation_create (s : Store) (path : String) (shape : ShapeArg) (dtype : Dtype) :
    Store × Except Err ZArray :=
  if contains_array s path || contains_group s path then (s, .error .valueError)
  else
    let sh := normalize_shape shape
    (init_array s path sh dtype,
     .ok { path := normalize_storage_path path, readonly := false, shape := sh,
           dtype := dtype })

/-- Embedding of `Group.create_dataset` (hierarchy.py:444) for the `data=None` case; the
ignored h5py-compatibility keyword arguments are not modelled. -/
def create_dataset (g : ZGroup) (s : Store) (name : String) (shape : ShapeArg)
    (dtype : Dtype) : Store × Except Err ZArray :=
  if g.readonly then (s, .error .readOnlyError)
  else
    let path := item_path g name
    match require_parent_group s path with
    | (s1, .error e) => (s1, .error e)
    | (s1, .ok _) =>
      if contains_array s1 path then (s1, .error .keyError)
      else if contains_group s1 path then (s1, .error .keyError)
      else creation_create s1 path shape dtype

/-- Common embedding of `Group.create`, `empty`, `zeros`, `ones`, `full`, `array` and the
`*_like` variants (hierarchy.py:572-660): check the read-only flag, require the parent
groups, then delegate to the `zarr.creation` function (modelled by `creation_create`; the
variants differ only in fill value and data source, which do not affect the modelled
store content). -/
def group_array_create (g : ZGroup) (s : Store) (name : String) (shape : ShapeArg)
    (dtype : Dtype) : Store × Except Err ZArray :=
  if g.readonly then (s, .error .readOnlyError)
  else
    let path := item_path g name
    match require_parent_group s path with
    | (s1, .error e) => (s1, .error e)
    | (s1, .ok _) => creation_create s1 path shape dtype

/-- Embedding of `Group.create` (hierarchy.py:572). -/
def group_create := group_array_create

/-- Embedding of `Group.empty` (hierarchy.py:581). -/
def group_empty := group_array_create

/-- Embedding of `Group.zeros` (hierarchy.py:590). -/
def group_zeros := group_array_create

/-- Embedding of `Group.ones` (hierarchy.py:599). -/
def group_ones := group_array_create

/-- Embedding of `Group.full` (hierarchy.py:608). -/
def group_full := group_array_create

/-- Embedding of `Group.array` (hierarchy.py:617); the initial data contributes shape and
dtype. -/
def group_array_fn := group_array_create

/-- Embedding of `Group.empty_like` (hierarchy.py:626): shape and dtype come from the
prototype array. -/
def group_empty_like (g : ZGroup) (s : Store) (name : String) (data : ZArray) :
    Store × Except Err ZArray :=
  group_array_create g s name (.many data.shape) data.dtype

/-- Embedding of `Group.zeros_like` (hierarchy.py:635). -/
def group_zeros_like (g : ZGroup) (s : Store) (name : String) (data : ZArray) :
    Store × Except Err ZArray :=
  group_array_create g s name (.many data.shape) data.dtype

/-- Embedding of `Group.ones_like` (hierarchy.py:644). -/
def group_ones_like (g : ZGroup) (s : Store) (name : String) (data : ZArray) :
    Store × Except Err ZArray :=
  group_array_create g s name (.many data.shape) data.dtype

/-- Embedding of `Group.full_like` (hierarchy.py:653). -/
def group_full_like (g : ZGroup) (s : Store) (name : String) (data : ZArray) :
    Store × Except Err ZArray :=
  group_array_create g s name (.many data.shape) data.dtype

/-- Embedding of `Group.require_dataset` (hierarchy.py:534).  `np.can_cast` is external
(numpy) and is taken as an explicit parameter. -/
def require_dataset (canCast : Dtype → Dtype → Bool) (g : ZGroup) (s : Store)
    (name : String) (shape : ShapeArg) (dtype : Dtype) (exact : Bool) :
    Store × Except Err ZArray :=
  let path := item_path g name
  if contains_array s path then
    match zarray_open s path g.readonly with
    | .error e => (s, .error e)
    | .ok a =>
      if normalize_shape shape ≠ a.shape then (s, .error .typeError)
      else if exact then
        if dtype ≠ a.dtype then (s, .error .typeError) else (s, .ok a)
      else
        if !canCast dtype a.dtype then (s, .error .typeError) else (s, .ok a)
  else create_dataset g s name shape dtype

/-- A node handle returned by lookup: an array or a group (spec §3 Node kind). -/
inductive Node
  | arr (a : ZArray)
  | grp (h : ZGroup)
deriving DecidableEq

/-- Embedding of `Group.__getitem__` (hierarchy.py:224). -/
def getitem (g : ZGroup) (s : Store) (item : String) : Except Err Node :=
  let path := item_path g item
  if contains_array s path then
    (zarray_open s path g.readonly).map .arr
  else if contains_group s path then
    (group_open s path g.readonly).map .grp
  else .error .keyError

/-- Embedding of `Group.__iter__` (hierarchy.py:140): sorted `listdir`, keeping names
that resolve to an array or group node. -/
def group_iter (g : ZGroup) (s : Store) : List String :=
  (List.insertionSort (fun a b => strLe a b = true) (listdir s g.path)).filter
    (fun key => contains_array s (g.path ++ "/" ++ key) ||
      contains_group s (g.path ++ "/" ++ key))

/-- Embedding of `Group.__len__` (hierarchy.py:165): `sum(1 for _ in self)`. -/
def group_len (g : ZGroup) (s : Store) : Nat :=
  ((group_iter g s).map (fun _ => 1)).sum

/-- Embedding of `Group.group_keys` (hierarchy.py:260). -/
def group_keys (g : ZGroup) (s : Store) : List String :=
  (List.insertionSort (fun a b => strLe a b = true) (listdir s g.path)).filter
    (fun key => contains_group s (g.path ++ "/" ++ key))

/-- Embedding of `Group.array_keys` (hierarchy.py:302). -/
def array_keys (g : ZGroup) (s : Store) : List String :=
  (List.insertionSort (fun a b => strLe a b = true) (listdir s g.path)).filter
    (fun key => contains_array s (g.path ++ "/" ++ key))

/-- Left-to-right effectful map over a list, the embedding of a Python generator that can
raise part-way through. -/
def mapME {α : Type _} {β : Type _} : List α → (α → Except Err β) → Except Err (List β)
  | [], _ => .ok []
  | x :: xs, f =>
    match f x with
    | .error e => .error e
    | .ok y =>
      match mapME xs f with
      | .error e => .error e
      | .ok ys => .ok (y :: ys)

/-- Embedding of `Group.groups` (hierarchy.py:280): group members paired with handles
carrying the parent's read-only flag. -/
def groups_fn (g : ZGroup) (s : Store) : Except Err (List (String × ZGroup)) :=
  mapME (group_keys g s) (fun key =>
    (group_open s (g.path ++ "/" ++ key) g.readonly).map (fun h => (key, h)))

/-- Embedding of `Group.arrays` (hierarchy.py:322). -/
def arrays_fn (g : ZGroup) (s : Store) : Except Err (List (String × ZArray)) :=
  mapME (array_keys g s) (fun key =>
    (zarray_open s (g.path ++ "/" ++ key) g.readonly).map (fun a => (key, a)))

/-- Keys lying under the normalized path's namespace; at the root this is every key. -/
def underPfx (p : String) (k : String) : Bool :=
  (pathPfx (normalize_storage_path p)).data.isPrefixOf k.data

/-- Modelled from the spec: `init_group(..., overwrite=True)` (§3 Lifecycle: deletion
removes all keys with the prefix) followed by group initialization. -/
def init_group_overwrite (s : Store) (p : String) : Store :=
  init_group (s.filter (fun e => !underPfx p e.1)) p

/-- Embedding of the `group` factory (hierarchy.py:663), over an explicit store in place
of the implicit fresh `DictStore`. -/
def group_factory (s : Store) (overwrite : Bool) : Store × Except Err ZGroup :=
  if overwrite then
    let s1 := init_group_overwrite s ""
    (s1, group_open s1 "" false)
  else if contains_array s "" then (s, .error .valueError)
  else if !contains_group s "" then
    let s1 := init_group s ""
    (s1, group_open s1 "" false)
  else (s, group_open s "" false)

/-- Persistence modes of `open_group` (hierarchy.py:715); `rp` stands for `r+` and `wm`
for `w-`. -/
inductive OpenMode
  | r | rp | a | w | wm | x
deriving DecidableEq

/-- Embedding of `open_group` (hierarchy.py:715), over an explicit store in place of the
`DirectoryStore` opened from the file system. -/
def open_group (s : Store) (mode : OpenMode) : Store × Except Err ZGroup :=
  let ro := decide (mode = OpenMode.r)
  match mode with
  | .r | .rp =>
    if contains_array s "" then (s, .error .valueError)
    else if !contains_group s "" then (s, .error .valueError)
    else (s, group_open s "" ro)
  | .w =>
    let s1 := init_group_overwrite s ""
    (s1, group_open s1 "" ro)
  | .a =>
    if contains_array s "" then (s, .error .valueError)
    else if !contains_group s "" then
      let s1 := init_group s ""
      (s1, group_open s1 "" ro)
    else (s, group_open s "" ro)
  | .wm | .x =>
    if contains_array s "" then (s, .error .valueError)
    else if contains_group s "" then (s, .error .valueError)
    else
      let s1 := init_group s ""
      (s1, group_open s1 "" ro)

/-- Modelled from the spec: the v3 sentinel key `<path>/zarr.json` (§6); its document is
modelled with the same `StoreVal`, the `node_type` field decided by the constructor. -/
def v3_meta_key_of (p : String) : String :=
  pathPfx (normalize_storage_path p) ++ "zarr.json"

/-- Modelled from the spec: `AsyncArray.open` (zarr.array, not among the source files):
read `zarr.json` and raise `KeyError` unless it describes an array (§6). -/
def v3_array_open (s : Store) (p : String) : Except Err ZArray :=
  match storeGet s (v3_meta_key_of p) with
  | some (.arrayMeta sh dt) =>
      .ok { path := normalize_storage_path p, readonly := false, shape := sh, dtype := dt }
  | _ => .error .keyError

/-- Modelled from the spec: `AsyncGroup.open` (zarr.group, not among the source files). -/
def v3_group_open (s : Store) (p : String) : Except Err ZGroup :=
  match storeGet s (v3_meta_key_of p) with
  | some .groupMeta => .ok { path := normalize_storage_path p, readonly := false }
  | _ => .error .keyError

/-- Embedding of `open_auto` (src/zarr/__init__.py:33): try opening as an array; on
`KeyError` open as a group; the sync bridge and the async-to-sync handle wrapping are the
identity here. -/
def open_auto (s : Store) : Except Err Node :=
  match v3_array_open s "" with
  | .ok a => .ok (.arr a)
  | .error .keyError => (v3_group_open s "").map .grp
  | .error e => .error e

/-- Schema exclusivity (spec §8 invariant 7): no path is both an array and a group. -/
def SchemaExclusive (s : Store) : Prop :=
  ∀ p, ¬(contains_array s p = true ∧ contains_group s p = true)

/-! ### Character-level string lemmas -/

theorem splitSeg_sep_cons (cs : List Char) : splitSeg ('/' :: cs) = [] :: splitSeg cs := by
  simp [splitSeg]

theorem splitSeg_cons_ne (c : Char) (cs : List Char) (hc : c ≠ '/') (h : List Char)
    (t : List (List Char)) (hsp : splitSeg cs = h :: t) :
    splitSeg (c :: cs) = (c :: h) :: t := by
  simp [splitSeg, hc, hsp]

theorem splitSeg_ne_nil (cs : List Char) : splitSeg cs ≠ [] := by
  induction cs with
  | nil => simp [splitSeg]
  | cons c cs ih =>
    simp only [splitSeg]
    split
    · simp
    · split
      · simp
      · simp

theorem joinSeg_cons_cons (s h : List Char) (t : List (List Char)) :
    joinSeg (s :: h :: t) = s ++ '/' :: joinSeg (h :: t) := by
  rfl

theorem joinSeg_splitSeg (cs : List Char) : joinSeg (splitSeg cs) = cs := by
  induction cs with
  | nil => rfl
  | cons c cs ih =>
    obtain ⟨h, t, hsp⟩ := List.exists_cons_of_ne_nil (splitSeg_ne_nil cs)
    rw [hsp] at ih
    by_cases hc : c = '/'
    · subst hc
      rw [splitSeg_sep_cons, hsp, joinSeg_cons_cons]
      simpa using ih
    · rw [splitSeg_cons_ne c cs hc h t hsp]
      rcases t with _ | ⟨h2, t2⟩
      · simpa [joinSeg] using congrArg (c :: ·) ih
      · rw [joinSeg_cons_cons] at ih ⊢
        rw [List.cons_append, ih]

theorem splitSeg_sep_not_mem (cs : List Char) : ∀ s ∈ splitSeg cs, '/' ∉ s := by
  induction cs with
  | nil => intro s hs; simp [splitSeg] at hs; simp [hs]
  | cons c cs ih =>
    obtain ⟨h, t, hsp⟩ := List.exists_cons_of_ne_nil (splitSeg_ne_nil cs)
    intro s hs
    by_cases hc : c = '/'
    · subst hc
      rw [splitSeg_sep_cons] at hs
      rcases List.mem_cons.mp hs with rfl | hs'
      · simp
      · exact ih s hs'
    · rw [splitSeg_cons_ne c cs hc h t hsp] at hs
      rcases List.mem_cons.mp hs with rfl | hs'
      · intro hmem
        rcases List.mem_cons.mp hmem with h1 | h1
        · exact hc h1.symm
        · exact ih h (hsp ▸ List.mem_cons_self h t) h1
      · exact ih s (hsp ▸ List.mem_cons_of_mem h hs')

theorem splitSeg_of_sep_not_mem (s : List Char) (h : '/' ∉ s) : splitSeg s = [s] := by
  induction s with
  | nil => rfl
  | cons c cs ih =>
    have hc : c ≠ '/' := fun hcc => h (hcc ▸ List.mem_cons_self c cs)
    have hcs : '/' ∉ cs := fun hm => h (List.mem_cons_of_mem c hm)
    exact splitSeg_cons_ne c cs hc cs [] (ih hcs)

theorem splitSeg_append_sep (s t : List Char) (h : '/' ∉ s) :
    splitSeg (s ++ '/' :: t) = s :: splitSeg t := by
  induction s with
  | nil => simpa using splitSeg_sep_cons t
  | cons c cs ih =>
    have hc : c ≠ '/' := fun hcc => h (hcc ▸ List.mem_cons_self c cs)
    have hcs : '/' ∉ cs := fun hm => h (List.mem_cons_of_mem c hm)
    rw [List.cons_append]
    obtain ⟨h2, t2, hsp⟩ := List.exists_cons_of_ne_nil (splitSeg_ne_nil (cs ++ '/' :: t))
    have hih := ih hcs
    rw [hsp] at hih
    rw [splitSeg_cons_ne c _ hc h2 t2 hsp]
    injection hih with h1 h2'
    rw [h1, h2']

theorem splitSeg_joinSeg (l : List (List Char)) (hne : l ≠ [])
    (hsep : ∀ s ∈ l, '/' ∉ s) : splitSeg (joinSeg l) = l := by
  induction l with
  | nil => exact absurd rfl hne
  | cons s t ih =>
    rcases t with _ | ⟨h2, t2⟩
    · exact splitSeg_of_sep_not_mem s (hsep s (List.mem_cons_self s []))
    · rw [joinSeg_cons_cons, splitSeg_append_sep s _ (hsep s (List.mem_cons_self s _))]
      rw [ih (by simp) (fun x hx => hsep x (List.mem_cons_of_mem s hx))]

/-! ### String-level facts -/

@[simp]
theorem str_data_of_mk (l : List Char) : (String.mk l).data = l := rfl

@[simp]
theorem str_mk_data (s : String) : String.mk s.data = s := rfl

theorem str_ext {a b : String} (h : a.data = b.data) : a = b := by
  cases a
  cases b
  exact congrArg String.mk h

theorem str_data_append (a b : String) : (a ++ b).data = a.data ++ b.data := rfl

theorem norm_data (p : String) :
    (normalize_storage_path p).data =
      joinSeg ((splitSeg p.data).filter (fun seg => !seg.isEmpty)) := rfl

theorem norm_idem (p : String) :
    normalize_storage_path (normalize_storage_path p) = normalize_storage_path p := by
  apply str_ext
  rw [norm_data, norm_data]
  by_cases hF : (splitSeg p.data).filter (fun seg => !seg.isEmpty) = []
  · rw [hF]
    simp [joinSeg, splitSeg]
  · have hsep : ∀ x ∈ (splitSeg p.data).filter (fun seg => !seg.isEmpty), '/' ∉ x :=
      fun x hx => splitSeg_sep_not_mem p.data x (List.mem_of_mem_filter hx)
    rw [splitSeg_joinSeg _ hF hsep]
    have hkeep : ∀ x ∈ (splitSeg p.data).filter (fun seg => !seg.isEmpty),
        ((fun seg => !seg.isEmpty) x) = true := fun x hx => (List.mem_filter.mp hx).2
    rw [List.filter_eq_self.mpr hkeep]

theorem joinSlash_strSplit (p : String) : joinSlash (strSplit p) = p := by
  apply str_ext
  show (joinSeg (((splitSeg p.data).map String.mk).map String.data)) = p.data
  rw [List.map_map]
  have : (String.data ∘ String.mk) = id := funext (fun l => rfl)
  rw [this, List.map_id, joinSeg_splitSeg]

theorem strSplit_ne_nil (p : String) : strSplit p ≠ [] := by
  simp [strSplit, List.map_eq_nil_iff, splitSeg_ne_nil]

/-! ### Store lookup and update -/

theorem storeGet_filter_ne (s : Store) (k q : String) (h : k ≠ q) :
    storeGet (s.filter (fun e => e.1 != k)) q = storeGet s q := by
  induction s with
  | nil => rfl
  | cons e t ih =>
    obtain ⟨k', v'⟩ := e
    by_cases hk : k' = k
    · subst hk
      simp only [List.filter_cons, bne_self_eq_false]
      rw [storeGet, if_neg h]
      exact ih
    · have hcond : (((k', v').1 != k) = true) := by simp [hk]
      rw [List.filter_cons, if_pos hcond, storeGet, storeGet]
      by_cases hq : k' = q
      · rw [if_pos hq, if_pos hq]
      · rw [if_neg hq, if_neg hq]
        exact ih

theorem storeGet_storeSet (s : Store) (k : String) (v : StoreVal) (q : String) :
    storeGet (storeSet s k v) q = if k = q then some v else storeGet s q := by
  rw [storeSet, storeGet]
  by_cases h : k = q
  · rw [if_pos h, if_pos h]
  · rw [if_neg h, if_neg h]
    exact storeGet_filter_ne s k q h

/-! ### Sentinel-key disjointness and injectivity -/

theorem pathPfx_inj {a b : String} (h : pathPfx a = pathPfx b) : a = b := by
  unfold pathPfx at h
  by_cases ha : a = ""
  · by_cases hb : b = ""
    · rw [ha, hb]
    · rw [if_pos ha, if_neg hb] at h
      have := congrArg String.data h
      rw [str_data_append] at this
      simp [ha] at this
  · by_cases hb : b = ""
    · rw [if_neg ha, if_pos hb] at h
      have := congrArg String.data h
      rw [str_data_append] at this
      simp [hb] at this
    · rw [if_neg ha, if_neg hb] at h
      have hd := congrArg String.data h
      rw [str_data_append, str_data_append] at hd
      exact str_ext (List.append_inj' hd rfl).1

theorem arrayKeyOf_ne_groupKeyOf (a b : String) : arrayKeyOf a ≠ groupKeyOf b := by
  intro h
  have hd := congrArg String.data h
  rw [arrayKeyOf, groupKeyOf, str_data_append, str_data_append] at hd
  have : array_meta_key.data = group_meta_key.data := (List.append_inj' hd rfl).2
  exact absurd this (by decide)

theorem groupKeyOf_inj {a b : String} (h : groupKeyOf a = groupKeyOf b) : a = b := by
  rw [groupKeyOf, groupKeyOf] at h
  have hd := congrArg String.data h
  rw [str_data_append, str_data_append] at hd
  exact pathPfx_inj (str_ext (List.append_inj' hd rfl).1)

theorem arrayKeyOf_inj {a b : String} (h : arrayKeyOf a = arrayKeyOf b) : a = b := by
  rw [arrayKeyOf, arrayKeyOf] at h
  have hd := congrArg String.data h
  rw [str_data_append, str_data_append] at hd
  exact pathPfx_inj (str_ext (List.append_inj' hd rfl).1)

/-! ### Node-kind predicates under initialization -/

theorem contains_array_init_group (s : Store) (p q : String) :
    contains_array (init_group s p) q = contains_array s q := by
  unfold contains_array init_group
  rw [storeGet_storeSet,
    if_neg (fun h => arrayKeyOf_ne_groupKeyOf (normalize_storage_path q)
      (normalize_storage_path p) h.symm)]

theorem contains_group_init_array (s : Store) (p q : String) (sh : List Nat) (dt : Dtype) :
    contains_group (init_array s p sh dt) q = contains_group s q := by
  unfold contains_group init_array
  rw [storeGet_storeSet,
    if_neg (arrayKeyOf_ne_groupKeyOf (normalize_storage_path p) (normalize_storage_path q))]

theorem contains_group_init_group (s : Store) (p q : String) :
    contains_group (init_group s p) q = true ↔
      normalize_storage_path q = normalize_storage_path p ∨ contains_group s q = true := by
  unfold contains_group init_group
  rw [storeGet_storeSet]
  by_cases h : groupKeyOf (normalize_storage_path p) = groupKeyOf (normalize_storage_path q)
  · rw [if_pos h]
    constructor
    · intro _
      exact Or.inl (groupKeyOf_inj h).symm
    · intro _
      rfl
  · rw [if_neg h]
    constructor
    · intro hg
      exact Or.inr hg
    · rintro (he | hg)
      · exact absurd (congrArg groupKeyOf he.symm) h
      · exact hg

theorem contains_array_init_array (s : Store) (p q : String) (sh : List Nat) (dt : Dtype) :
    contains_array (init_array s p sh dt) q = true ↔
      normalize_storage_path q = normalize_storage_path p ∨ contains_array s q = true := by
  unfold contains_array init_array
  rw [storeGet_storeSet]
  by_cases h : arrayKeyOf (normalize_storage_path p) = arrayKeyOf (normalize_storage_path q)
  · rw [if_pos h]
    constructor
    · intro _
      exact Or.inl (arrayKeyOf_inj h).symm
    · intro _
      rfl
  · rw [if_neg h]
    constructor
    · intro hg
      exact Or.inr hg
    · rintro (he | hg)
      · exact absurd (congrArg arrayKeyOf he.symm) h
      · exact hg

theorem contains_group_init_group_self (s : Store) (p : String) :
    contains_group (init_group s p) p = true :=
  (contains_group_init_group s p p).mpr (Or.inl rfl)

theorem contains_group_init_group_of (s : Store) (p q : String)
    (h : contains_group s q = true) : contains_group (init_group s p) q = true :=
  (contains_group_init_group s p q).mpr (Or.inr h)

theorem contains_array_congr (s : Store) {p q : String}
    (h : normalize_storage_path q = normalize_storage_path p) :
    contains_array s q = contains_array s p := by
  unfold contains_array
  rw [h]

theorem smem_storeSet (s : Store) (k : String) (v : StoreVal) (q : String) :
    (storeGet (storeSet s k v) q).isSome = true ↔
      q = k ∨ (storeGet s q).isSome = true := by
  rw [storeGet_storeSet]
  by_cases h : k = q
  · rw [if_pos h]
    simp [h.symm]
  · rw [if_neg h]
    constructor
    · intro hq
      exact Or.inr hq
    · rintro (hq | hq)
      · exact absurd hq.symm h
      · exact hq

/-! ### Schema-exclusivity preservation -/

theorem schemaExclusive_init_group {s : Store} (hex : SchemaExclusive s) {p : String}
    (hna : contains_array s p = false) : SchemaExclusive (init_group s p) := by
  rintro q ⟨hca, hcg⟩
  rw [contains_array_init_group] at hca
  rcases (contains_group_init_group s p q).mp hcg with he | hg
  · rw [contains_array_congr s he, hna] at hca
    cases hca
  · exact hex q ⟨hca, hg⟩

theorem schemaExclusive_init_array {s : Store} (hex : SchemaExclusive s) {p : String}
    (hng : contains_group s p = false) (sh : List Nat) (dt : Dtype) :
    SchemaExclusive (init_array s p sh dt) := by
  rintro q ⟨hca, hcg⟩
  rw [contains_group_init_array] at hcg
  rcases (contains_array_init_array s p q sh dt).mp hca with he | hg
  · have : contains_group s q = contains_group s p := by
      unfold contains_group
      rw [he]
    rw [this, hng] at hcg
    cases hcg
  · exact hex q ⟨hg, hcg⟩

/-! ### Intermediate-group loop lemmas -/

theorem ensure_chain_exclusive (segs : List String) (idxs : List Nat) (s : Store)
    (hex : SchemaExclusive s) : SchemaExclusive (ensure_chain segs s idxs).1 := by
  induction idxs generalizing s with
  | nil => exact hex
  | cons i rest ih =>
    simp only [ensure_chain]
    by_cases hca : contains_array s (joinSlash (segs.take i)) = true
    · rw [if_pos hca]
      exact hex
    · rw [if_neg hca]
      by_cases hcg : contains_group s (joinSlash (segs.take i)) = true
      · rw [if_pos hcg]
        exact ih s hex
      · rw [if_neg hcg]
        exact ih _ (schemaExclusive_init_group hex (Bool.not_eq_true _ ▸ hca))

theorem ensure_chain_ro_exclusive (ro : Bool) (segs : List String) (idxs : List Nat)
    (s : Store) (hex : SchemaExclusive s) :
    SchemaExclusive (ensure_chain_ro ro segs s idxs).1 := by
  induction idxs generalizing s with
  | nil => exact hex
  | cons i rest ih =>
    simp only [ensure_chain_ro]
    by_cases hca : contains_array s (joinSlash (segs.take i)) = true
    · rw [if_pos hca]
      exact hex
    · rw [if_neg hca]
      by_cases hcg : contains_group s (joinSlash (segs.take i)) = true
      · rw [if_pos hcg]
        exact ih s hex
      · rw [if_neg hcg]
        by_cases hro : ro = true
        · rw [if_pos hro]
          exact hex
        · rw [if_neg hro]
          exact ih _ (schemaExclusive_init_group hex (Bool.not_eq_true _ ▸ hca))

theorem ensure_chain_ok (segs : List String) (idxs : List Nat) (s : Store)
    (hca : ∀ i ∈ idxs, contains_array s (joinSlash (segs.take i)) = false) :
    ∃ s', ensure_chain segs s idxs = (s', .ok ()) ∧
      (∀ q, contains_array s' q = contains_array s q) ∧
      (∀ q, contains_group s q = true → contains_group s' q = true) ∧
      (∀ i ∈ idxs, contains_group s' (joinSlash (segs.take i)) = true) ∧
      (∀ k, (storeGet s' k).isSome = true ↔ (storeGet s k).isSome = true ∨
        ∃ i ∈ idxs, k = groupKeyOf (normalize_storage_path (joinSlash (segs.take i)))) := by
  induction idxs generalizing s with
  | nil =>
    exact ⟨s, rfl, fun q => rfl, fun q h => h, by simp, by simp⟩
  | cons i rest ih =>
    have hcai : contains_array s (joinSlash (segs.take i)) = false :=
      hca i (List.mem_cons_self i rest)
    simp only [ensure_chain]
    rw [if_neg (by rw [hcai]; simp)]
    by_cases hcgi : contains_group s (joinSlash (segs.take i)) = true
    · rw [if_pos hcgi]
      obtain ⟨s', heq, hA, hB, hG, hM⟩ :=
        ih s (fun j hj => hca j (List.mem_cons_of_mem i hj))
      refine ⟨s', heq, hA, hB, ?_, ?_⟩
      · intro j hj
        rcases List.mem_cons.mp hj with rfl | hj'
        · exact hB _ hcgi
        · exact hG j hj'
      · intro k
        rw [hM k]
        constructor
        · rintro (hk | ⟨j, hj, hkj⟩)
          · exact Or.inl hk
          · exact Or.inr ⟨j, List.mem_cons_of_mem i hj, hkj⟩
        · rintro (hk | ⟨j, hj, hkj⟩)
          · exact Or.inl hk
          · rcases List.mem_cons.mp hj with rfl | hj'
            · subst hkj
              exact Or.inl hcgi
            · exact Or.inr ⟨j, hj', hkj⟩
    · rw [if_neg hcgi]
      have hca1 : ∀ j ∈ rest,
          contains_array (init_group s (joinSlash (segs.take i)))
            (joinSlash (segs.take j)) = false := by
        intro j hj
        rw [contains_array_init_group]
        exact hca j (List.mem_cons_of_mem i hj)
      obtain ⟨s', heq, hA, hB, hG, hM⟩ := ih _ hca1
      refine ⟨s', heq, ?_, ?_, ?_, ?_⟩
      · intro q
        rw [hA q, contains_array_init_group]
      · intro q hq
        exact hB q (contains_group_init_group_of s _ q hq)
      · intro j hj
        rcases List.mem_cons.mp hj with rfl | hj'
        · exact hB _ (contains_group_init_group_self s _)
        · exact hG j hj'
      · intro k
        rw [hM k]
        unfold init_group
        rw [smem_storeSet]
        constructor
        · rintro ((hk | hk) | ⟨j, hj, hkj⟩)
          · exact Or.inr ⟨i, List.mem_cons_self i rest, hk⟩
          · exact Or.inl hk
          · exact Or.inr ⟨j, List.mem_cons_of_mem i hj, hkj⟩
        · rintro (hk | ⟨j, hj, hkj⟩)
          · exact Or.inl (Or.inr hk)
          · rcases List.mem_cons.mp hj with rfl | hj'
            · exact Or.inl (Or.inl hkj)
            · exact Or.inr ⟨j, hj', hkj⟩

theorem ensure_chain_err (segs : List String) (idxs : List Nat) (s : Store)
    (h : ∃ i ∈ idxs, contains_array s (joinSlash (segs.take i)) = true) :
    (ensure_chain segs s idxs).2 = .error .keyError := by
  induction idxs generalizing s with
  | nil => simp at h
  | cons i rest ih =>
    simp only [ensure_chain]
    by_cases hcai : contains_array s (joinSlash (segs.take i)) = true
    · rw [if_pos hcai]
    · rw [if_neg hcai]
      have hrest : ∃ j ∈ rest, contains_array s (joinSlash (segs.take j)) = true := by
        obtain ⟨j, hj, hcj⟩ := h
        rcases List.mem_cons.mp hj with rfl | hj'
        · exact absurd hcj hcai
        · exact ⟨j, hj', hcj⟩
      by_cases hcgi : contains_group s (joinSlash (segs.take i)) = true
      · rw [if_pos hcgi]
        exact ih s hrest
      · rw [if_neg hcgi]
        apply ih
        obtain ⟨j, hj, hcj⟩ := hrest
        refine ⟨j, hj, ?_⟩
        rw [contains_array_init_group]
        exact hcj

theorem ensure_chain_ro_false (segs : List String) (idxs : List Nat) (s : Store) :
    ensure_chain_ro false segs s idxs = ensure_chain segs s idxs := by
  induction idxs generalizing s with
  | nil => rfl
  | cons i rest ih =>
    simp only [ensure_chain_ro, ensure_chain]
    by_cases hcai : contains_array s (joinSlash (segs.take i)) = true
    · rw [if_pos hcai, if_pos hcai]
    · rw [if_neg hcai, if_neg hcai]
      by_cases hcgi : contains_group s (joinSlash (segs.take i)) = true
      · rw [if_pos hcgi, if_pos hcgi]
        exact ih s
      · rw [if_neg hcgi, if_neg hcgi, if_neg (by simp)]
        exact ih _

theorem ensure_chain_ro_noop (ro : Bool) (segs : List String) (idxs : List Nat) (s : Store)
    (hca : ∀ i ∈ idxs, contains_array s (joinSlash (segs.take i)) = false)
    (hcg : ∀ i ∈ idxs, contains_group s (joinSlash (segs.take i)) = true) :
    ensure_chain_ro ro segs s idxs = (s, .ok ()) := by
  induction idxs with
  | nil => rfl
  | cons i rest ih =>
    simp only [ensure_chain_ro]
    rw [if_neg (by rw [hca i (List.mem_cons_self i rest)]; simp),
      if_pos (hcg i (List.mem_cons_self i rest))]
    exact ih (fun j hj => hca j (List.mem_cons_of_mem i hj))
      (fun j hj => hcg j (List.mem_cons_of_mem i hj))

theorem ensure_chain_ro_readonly (segs : List String) (idxs : List Nat) (s : Store)
    (hca : ∀ i ∈ idxs, contains_array s (joinSlash (segs.take i)) = false)
    (hex : ∃ i ∈ idxs, contains_group s (joinSlash (segs.take i)) = false) :
    ensure_chain_ro true segs s idxs = (s, .error .readOnlyError) := by
  induction idxs with
  | nil => simp at hex
  | cons i rest ih =>
    simp only [ensure_chain_ro]
    rw [if_neg (by rw [hca i (List.mem_cons_self i rest)]; simp)]
    by_cases hcgi : contains_group s (joinSlash (segs.take i)) = true
    · rw [if_pos hcgi]
      apply ih (fun j hj => hca j (List.mem_cons_of_mem i hj))
      obtain ⟨j, hj, hcj⟩ := hex
      rcases List.mem_cons.mp hj with rfl | hj'
      · rw [hcgi] at hcj
        cases hcj
      · exact ⟨j, hj', hcj⟩
    · rw [if_neg hcgi]
      simp

/-! ### Schema exclusivity through each creating operation (claim C1) -/

theorem bool_eq_false {b : Bool} (h : ¬b = true) : b = false := by
  cases b
  · rfl
  · exact absurd rfl h

theorem create_group_exclusive (g : ZGroup) (s : Store) (name : String)
    (hex : SchemaExclusive s) : SchemaExclusive (create_group g s name).1 := by
  simp only [create_group]
  split
  · exact hex
  · split
    next s1 e heq =>
      have h := ensure_chain_exclusive (strSplit (item_path g name))
        (List.range (strSplit (item_path g name)).length) s hex
      rw [heq] at h
      exact h
    next s1 u heq =>
      have hs1 : SchemaExclusive s1 := by
        have h := ensure_chain_exclusive (strSplit (item_path g name))
          (List.range (strSplit (item_path g name)).length) s hex
        rw [heq] at h
        exact h
      split
      · exact hs1
      · split
        · exact hs1
        next hca hcg =>
          have hs2 : SchemaExclusive (init_group s1 (item_path g name)) :=
            schemaExclusive_init_group hs1 (bool_eq_false hca)
          split
          · exact hs2
          · exact hs2

theorem require_group_exclusive (g : ZGroup) (s : Store) (name : String)
    (hex : SchemaExclusive s) : SchemaExclusive (require_group g s name).1 := by
  simp only [require_group]
  split
  next s1 e heq =>
    have h := ensure_chain_ro_exclusive g.readonly (strSplit (item_path g name))
      (List.range ((strSplit (item_path g name)).length + 1)) s hex
    rw [heq] at h
    exact h
  next s1 u heq =>
    have hs1 : SchemaExclusive s1 := by
      have h := ensure_chain_ro_exclusive g.readonly (strSplit (item_path g name))
        (List.range ((strSplit (item_path g name)).length + 1)) s hex
      rw [heq] at h
      exact h
    split
    · exact hs1
    · exact hs1

theorem creation_create_exclusive (s : Store) (path : String) (shape : ShapeArg)
    (dtype : Dtype) (hex : SchemaExclusive s) :
    SchemaExclusive (creation_create s path shape dtype).1 := by
  simp only [creation_create]
  by_cases h : (contains_array s path || contains_group s path) = true
  · rw [if_pos h]
    exact hex
  · rw [if_neg h]
    have hng : contains_group s path = false := by
      rcases Bool.or_eq_false_iff.mp (bool_eq_false h) with ⟨_, h2⟩
      exact h2
    exact schemaExclusive_init_array hex hng _ _

theorem require_parent_group_exclusive (s : Store) (path : String)
    (hex : SchemaExclusive s) : SchemaExclusive (require_parent_group s path).1 :=
  ensure_chain_exclusive (strSplit path) (List.range (strSplit path).length) s hex

theorem create_dataset_exclusive (g : ZGroup) (s : Store) (name : String)
    (shape : ShapeArg) (dtype : Dtype) (hex : SchemaExclusive s) :
    SchemaExclusive (create_dataset g s name shape dtype).1 := by
  simp only [create_dataset]
  split
  · exact hex
  · split
    next s1 e heq =>
      have h := require_parent_group_exclusive s (item_path g name) hex
      rw [heq] at h
      exact h
    next s1 u heq =>
      have hs1 : SchemaExclusive s1 := by
        have h := require_parent_group_exclusive s (item_path g name) hex
        rw [heq] at h
        exact h
      split
      · exact hs1
      · split
        · exact hs1
        · exact creation_create_exclusive s1 (item_path g name) shape dtype hs1

theorem group_array_create_exclusive (g : ZGroup) (s : Store) (name : String)
    (shape : ShapeArg) (dtype : Dtype) (hex : SchemaExclusive s) :
    SchemaExclusive (group_array_create g s name shape dtype).1 := by
  simp only [group_array_create]
  split
  · exact hex
  · split
    next s1 e heq =>
      have h := require_parent_group_exclusive s (item_path g name) hex
      rw [heq] at h
      exact h
    next s1 u heq =>
      have hs1 : SchemaExclusive s1 := by
        have h := require_parent_group_exclusive s (item_path g name) hex
        rw [heq] at h
        exact h
      exact creation_create_exclusive s1 (item_path g name) shape dtype hs1

/-- C1: starting from a store in which no path is both an array and a group, every
node-creating Group operation — `create_group`, `require_group`, `create_dataset`,
`create`, `empty`, `zeros`, `ones`, `full`, `array` and the `*_like` variants — leaves a
store (whether it succeeds or raises) in which no path contains both an array and a
group, because every initialization is guarded on the target and on every intermediate
prefix. -/
theorem c1_schema_exclusivity_preserved (s : Store) (hex : SchemaExclusive s)
    (g : ZGroup) (name : String) (shape : ShapeArg) (dtype : Dtype) (data : ZArray) :
    SchemaExclusive (create_group g s name).1 ∧
    SchemaExclusive (require_group g s name).1 ∧
    SchemaExclusive (create_dataset g s name shape dtype).1 ∧
    SchemaExclusive (group_create g s name shape dtype).1 ∧
    SchemaExclusive (group_empty g s name shape dtype).1 ∧
    SchemaExclusive (group_zeros g s name shape dtype).1 ∧
    SchemaExclusive (group_ones g s name shape dtype).1 ∧
    SchemaExclusive (group_full g s name shape dtype).1 ∧
    SchemaExclusive (group_array_fn g s name shape dtype).1 ∧
    SchemaExclusive (group_empty_like g s name data).1 ∧
    SchemaExclusive (group_zeros_like g s name data).1 ∧
    SchemaExclusive (group_ones_like g s name data).1 ∧
    SchemaExclusive (group_full_like g s name data).1 :=
  ⟨create_group_exclusive g s name hex,
   require_group_exclusive g s name hex,
   create_dataset_exclusive g s name shape dtype hex,
   group_array_create_exclusive g s name shape dtype hex,
   group_array_create_exclusive g s name shape dtype hex,
   group_array_create_exclusive g s name shape dtype hex,
   group_array_create_exclusive g s name shape dtype hex,
   group_array_create_exclusive g s name shape dtype hex,
   group_array_create_exclusive g s name shape dtype hex,
   group_array_create_exclusive g s name (.many data.shape) data.dtype hex,
   group_array_create_exclusive g s name (.many data.shape) data.dtype hex,
   group_array_create_exclusive g s name (.many data.shape) data.dtype hex,
   group_array_create_exclusive g s name (.many data.shape) data.dtype hex⟩

theorem schemaExclusive_nil : SchemaExclusive ([] : Store) := by
  rintro p ⟨hca, _⟩
  simp [contains_array, storeGet] at hca

/-- Witness for C1 at a concrete store, group and inputs. -/
theorem c1_schema_exclusivity_preserved_witness :
    SchemaExclusive ([] : Store) ∧
    SchemaExclusive (create_group ⟨"", false⟩ [] "foo/bar").1 :=
  ⟨schemaExclusive_nil,
   (c1_schema_exclusivity_preserved [] schemaExclusive_nil ⟨"", false⟩ "foo/bar"
     (.one 1) .f64 ⟨"", false, [1], .f64⟩).1⟩

/-! ### Behavior of create_group (claim C2) -/

theorem contains_array_norm (s : Store) (p : String) :
    contains_array s (normalize_storage_path p) = contains_array s p := by
  unfold contains_array
  rw [norm_idem]

theorem contains_group_norm (s : Store) (p : String) :
    contains_group s (normalize_storage_path p) = contains_group s p := by
  unfold contains_group
  rw [norm_idem]

/-- C2: `create_group(name)` checks each path segment along the way: it fails with
`KeyError` when some proper prefix of the target contains an array; otherwise it
initializes a group at every missing intermediate prefix (the store state
`(require_parent_group s path).1`), then fails with `KeyError` when the terminal path at
that point contains an array or a group, and otherwise initializes the terminal group and
returns a handle to it.  Stated for a writable handle (`readonly = false`); the read-only
guard is claim C6's subject. -/
theorem c2_create_group_behavior (g : ZGroup) (s : Store) (name : String)
    (hro : g.readonly = false) :
    ((∃ i < (strSplit (item_path g name)).length,
        contains_array s (joinSlash ((strSplit (item_path g name)).take i)) = true) →
      (create_group g s name).2 = .error .keyError) ∧
    ((∀ i < (strSplit (item_path g name)).length,
        contains_array s (joinSlash ((strSplit (item_path g name)).take i)) = false) →
      ((contains_array (require_parent_group s (item_path g name)).1
            (item_path g name) = true ∨
          contains_group (require_parent_group s (item_path g name)).1
            (item_path g name) = true) →
        (create_group g s name).2 = .error .keyError) ∧
      (contains_array (require_parent_group s (item_path g name)).1
          (item_path g name) = false →
        contains_group (require_parent_group s (item_path g name)).1
          (item_path g name) = false →
        (create_group g s name).2 =
            .ok { path := normalize_storage_path (item_path g name), readonly := false } ∧
          contains_group (create_group g s name).1 (item_path g name) = true ∧
          (∀ k, (storeGet (create_group g s name).1 k).isSome = true ↔
            (storeGet s k).isSome = true ∨
            (∃ i < (strSplit (item_path g name)).length,
              k = groupKeyOf (normalize_storage_path
                (joinSlash ((strSplit (item_path g name)).take i)))) ∨
            k = groupKeyOf (normalize_storage_path (item_path g name))))) := by
  constructor
  · intro hex
    have hex' : ∃ i ∈ List.range (strSplit (item_path g name)).length,
        contains_array s (joinSlash ((strSplit (item_path g name)).take i)) = true := by
      obtain ⟨i, hi, hci⟩ := hex
      exact ⟨i, List.mem_range.mpr hi, hci⟩
    rcases hec : ensure_chain (strSplit (item_path g name)) s
        (List.range (strSplit (item_path g name)).length) with ⟨s1, r⟩
    have h2 := ensure_chain_err (strSplit (item_path g name))
      (List.range (strSplit (item_path g name)).length) s hex'
    rw [hec] at h2
    have hr : r = .error .keyError := h2
    subst hr
    simp [create_group, hro, hec]
  · intro hclean
    have hclean' : ∀ i ∈ List.range (strSplit (item_path g name)).length,
        contains_array s (joinSlash ((strSplit (item_path g name)).take i)) = false :=
      fun i hi => hclean i (List.mem_range.mp hi)
    obtain ⟨s', heq, hA, hB, hG, hM⟩ := ensure_chain_ok (strSplit (item_path g name))
      (List.range (strSplit (item_path g name)).length) s hclean'
    have hmid : (require_parent_group s (item_path g name)).1 = s' := by
      rw [require_parent_group, heq]
    rw [hmid]
    constructor
    · rintro (hca | hcg)
      · simp [create_group, hro, heq, hca]
      · by_cases hca : contains_array s' (item_path g name) = true
        · simp [create_group, hro, heq, hca]
        · simp [create_group, hro, heq, bool_eq_false hca, hcg]
    · intro hca hcg
      have hrun : create_group g s name =
          (init_group s' (item_path g name),
           .ok { path := normalize_storage_path (item_path g name), readonly := false }) := by
        simp [create_group, hro, heq, hca, hcg, group_open, contains_array_init_group,
          contains_array_norm, contains_group_norm, contains_group_init_group_self]
      rw [hrun]
      refine ⟨rfl, contains_group_init_group_self s' (item_path g name), ?_⟩
      intro k
      rw [init_group, smem_storeSet, hM k]
      constructor
      · rintro (hk | hk | ⟨i, hi, hki⟩)
        · exact Or.inr (Or.inr hk)
        · exact Or.inl hk
        · exact Or.inr (Or.inl ⟨i, List.mem_range.mp hi, hki⟩)
      · rintro (hk | ⟨i, hi, hki⟩ | hk)
        · exact Or.inr (Or.inl hk)
        · exact Or.inr (Or.inr ⟨i, List.mem_range.mpr hi, hki⟩)
        · exact Or.inl hk

/-- Witness for C2: on the store holding only a root group, `create_group "a/b"` from the
root succeeds, creating groups at `a` and `a/b`. -/
theorem c2_create_group_behavior_witness :
    (create_group ⟨"", false⟩ [(".zgroup", StoreVal.groupMeta)] "a/b").2 =
      .ok { path := "a/b", readonly := false } :=
  (((c2_create_group_behavior ⟨"", false⟩ [(".zgroup", StoreVal.groupMeta)] "a/b"
      rfl).2 (by decide)).2 (by decide) (by decide)).1

/-! ### Idempotence of require_group (claim C5) -/

theorem take_length_joinSlash (P : String) :
    joinSlash ((strSplit P).take (strSplit P).length) = P := by
  rw [List.take_length, joinSlash_strSplit]

/-- C5: on a writable handle, for every name such that the resolved path and all its
prefixes are groups or absent (never arrays), the first `require_group(name)` succeeds,
and a second call returns the very same handle and leaves the store it produced
unchanged; handle equality includes store equality, matching `Group.__eq__`. -/
theorem c5_require_group_idempotent (g : ZGroup) (s : Store) (name : String)
    (hro : g.readonly = false)
    (hclean : ∀ i ≤ (strSplit (item_path g name)).length,
      contains_array s (joinSlash ((strSplit (item_path g name)).take i)) = false) :
    ∃ s1 h, require_group g s name = (s1, .ok h) ∧
      require_group g s1 name = (s1, .ok h) ∧
      h.path = normalize_storage_path (item_path g name) ∧ h.readonly = false := by
  have hca' : ∀ i ∈ List.range ((strSplit (item_path g name)).length + 1),
      contains_array s (joinSlash ((strSplit (item_path g name)).take i)) = false :=
    fun i hi => hclean i (Nat.lt_succ_iff.mp (List.mem_range.mp hi))
  obtain ⟨s', heq, hA, hB, hG, hM⟩ := ensure_chain_ok (strSplit (item_path g name))
    (List.range ((strSplit (item_path g name)).length + 1)) s hca'
  have hterm : joinSlash ((strSplit (item_path g name)).take
      (strSplit (item_path g name)).length) = item_path g name :=
    take_length_joinSlash (item_path g name)
  have hmem : (strSplit (item_path g name)).length ∈
      List.range ((strSplit (item_path g name)).length + 1) :=
    List.mem_range.mpr (Nat.lt_succ_self _)
  have hcaP : contains_array s' (item_path g name) = false := by
    rw [hA]
    have h := hclean (strSplit (item_path g name)).length (le_refl _)
    rw [hterm] at h
    exact h
  have hcgP : contains_group s' (item_path g name) = true := by
    have h := hG _ hmem
    rw [hterm] at h
    exact h
  have hopen : group_open s' (item_path g name) false =
      .ok { path := normalize_storage_path (item_path g name), readonly := false } := by
    simp [group_open, contains_array_norm, contains_group_norm, hcaP, hcgP]
  have hrun1 : require_group g s name =
      (s', .ok { path := normalize_storage_path (item_path g name),
                 readonly := false }) := by
    simp [require_group, hro, ensure_chain_ro_false, heq, hopen]
  have hca2 : ∀ i ∈ List.range ((strSplit (item_path g name)).length + 1),
      contains_array s' (joinSlash ((strSplit (item_path g name)).take i)) = false := by
    intro i hi
    rw [hA]
    exact hca' i hi
  have hrun2 : require_group g s' name =
      (s', .ok { path := normalize_storage_path (item_path g name),
                 readonly := false }) := by
    have hnoop := ensure_chain_ro_noop false (strSplit (item_path g name))
      (List.range ((strSplit (item_path g name)).length + 1)) s' hca2 hG
    simp [require_group, hro, hnoop, hopen]
  refine ⟨s', { path := normalize_storage_path (item_path g name), readonly := false },
    hrun1, hrun2, rfl, rfl⟩

/-- Witness for C5 at a concrete store and name. -/
theorem c5_require_group_idempotent_witness :
    ∃ s1 h, require_group ⟨"", false⟩ [(".zgroup", StoreVal.groupMeta)] "foo" =
        (s1, .ok h) ∧
      require_group ⟨"", false⟩ s1 "foo" = (s1, .ok h) ∧
      h.path = normalize_storage_path
        (item_path ⟨"", false⟩ "foo") ∧ h.readonly = false :=
  c5_require_group_idempotent ⟨"", false⟩ [(".zgroup", StoreVal.groupMeta)] "foo" rfl
    (by decide)

/-! ### Read-only protection (claim C6) -/

theorem ensure_chain_ro_true_fst (segs : List String) (idxs : List Nat) (s : Store) :
    (ensure_chain_ro true segs s idxs).1 = s := by
  induction idxs with
  | nil => rfl
  | cons i rest ih =>
    simp only [ensure_chain_ro]
    by_cases hca : contains_array s (joinSlash (segs.take i)) = true
    · rw [if_pos hca]
    · rw [if_neg hca]
      by_cases hcg : contains_group s (joinSlash (segs.take i)) = true
      · rw [if_pos hcg]
        exact ih
      · rw [if_neg hcg]
        simp

/-- C6 (amended): on a read-only handle every array- or group-creating method fails with
the read-only-violation error before any store write, leaving the store unchanged;
`require_group` likewise performs no store write, and it raises the read-only-violation
error when the target group does not exist and no prefix of the resolved path contains an
array. -/
theorem c6_readonly_mutations_guarded (g : ZGroup) (s : Store) (name : String)
    (shape : ShapeArg) (dtype : Dtype) (data : ZArray) (hro : g.readonly = true) :
    create_group g s name = (s, .error .readOnlyError) ∧
    create_dataset g s name shape dtype = (s, .error .readOnlyError) ∧
    group_create g s name shape dtype = (s, .error .readOnlyError) ∧
    group_empty g s name shape dtype = (s, .error .readOnlyError) ∧
    group_zeros g s name shape dtype = (s, .error .readOnlyError) ∧
    group_ones g s name shape dtype = (s, .error .readOnlyError) ∧
    group_full g s name shape dtype = (s, .error .readOnlyError) ∧
    group_array_fn g s name shape dtype = (s, .error .readOnlyError) ∧
    group_empty_like g s name data = (s, .error .readOnlyError) ∧
    group_zeros_like g s name data = (s, .error .readOnlyError) ∧
    group_ones_like g s name data = (s, .error .readOnlyError) ∧
    group_full_like g s name data = (s, .error .readOnlyError) ∧
    (require_group g s name).1 = s ∧
    ((∀ i ≤ (strSplit (item_path g name)).length,
        contains_array s (joinSlash ((strSplit (item_path g name)).take i)) = false) →
      contains_group s (item_path g name) = false →
      require_group g s name = (s, .error .readOnlyError)) := by
  refine ⟨by simp [create_group, hro], by simp [create_dataset, hro],
    by simp [group_create, group_array_create, hro],
    by simp [group_empty, group_array_create, hro],
    by simp [group_zeros, group_array_create, hro],
    by simp [group_ones, group_array_create, hro],
    by simp [group_full, group_array_create, hro],
    by simp [group_array_fn, group_array_create, hro],
    by simp [group_empty_like, group_array_create, hro],
    by simp [group_zeros_like, group_array_create, hro],
    by simp [group_ones_like, group_array_create, hro],
    by simp [group_full_like, group_array_create, hro], ?_, ?_⟩
  · simp only [require_group]
    split
    next s1 e heq =>
      have h := ensure_chain_ro_true_fst (strSplit (item_path g name))
        (List.range ((strSplit (item_path g name)).length + 1)) s
      rw [hro] at heq
      rw [heq] at h
      exact h
    next s1 u heq =>
      have h := ensure_chain_ro_true_fst (strSplit (item_path g name))
        (List.range ((strSplit (item_path g name)).length + 1)) s
      rw [hro] at heq
      rw [heq] at h
      split
      · exact h
      · exact h
  intro hclean hcg
  have hca' : ∀ i ∈ List.range ((strSplit (item_path g name)).length + 1),
      contains_array s (joinSlash ((strSplit (item_path g name)).take i)) = false :=
    fun i hi => hclean i (Nat.lt_succ_iff.mp (List.mem_range.mp hi))
  have hex : ∃ i ∈ List.range ((strSplit (item_path g name)).length + 1),
      contains_group s (joinSlash ((strSplit (item_path g name)).take i)) = false := by
    refine ⟨(strSplit (item_path g name)).length, List.mem_range.mpr (Nat.lt_succ_self _), ?_⟩
    rw [take_length_joinSlash]
    exact hcg
  have hloop := ensure_chain_ro_readonly (strSplit (item_path g name))
    (List.range ((strSplit (item_path g name)).length + 1)) s hca' hex
  simp [require_group, hro, hloop]

/-- Witness for C6 (amended) at a concrete read-only handle. -/
theorem c6_readonly_mutations_guarded_witness :
    create_group ⟨"", true⟩ [(".zgroup", StoreVal.groupMeta)] "foo" =
        ([(".zgroup", StoreVal.groupMeta)], .error .readOnlyError) ∧
    require_group ⟨"", true⟩ [(".zgroup", StoreVal.groupMeta)] "foo" =
        ([(".zgroup", StoreVal.groupMeta)], .error .readOnlyError) :=
  have h := c6_readonly_mutations_guarded ⟨"", true⟩ [(".zgroup", StoreVal.groupMeta)]
    "foo" (.one 1) .f64 ⟨"", false, [1], .f64⟩ rfl
  ⟨h.1, h.2.2.2.2.2.2.2.2.2.2.2.2.2 (by decide) (by decide)⟩

/-- Counterexample to C6 as stated: on a read-only root handle over a store where `foo`
holds an array, the target group of `require_group "foo"` does not exist, yet the call
raises `KeyError` rather than the read-only-violation error (the store is still left
unchanged). -/
theorem c6_readonly_counterexample :
    contains_group
        [(".zgroup", StoreVal.groupMeta), ("foo/.zarray", StoreVal.arrayMeta [3] Dtype.f64)]
        "foo" = false ∧
    require_group ⟨"", true⟩
        [(".zgroup", StoreVal.groupMeta), ("foo/.zarray", StoreVal.arrayMeta [3] Dtype.f64)]
        "foo" =
      ([(".zgroup", StoreVal.groupMeta), ("foo/.zarray", StoreVal.arrayMeta [3] Dtype.f64)],
        .error .keyError) ∧
    Err.keyError ≠ Err.readOnlyError := by
  decide

/-! ### ContainsArray conflicts when opening groups (claim C7) -/

/-- C7: when the store holds an array at the target path, constructing or opening a group
there fails with the `ValueError` that reports the array conflict: `Group.__init__` for
any path and read-only flag, the `group()` factory (without overwrite), and `open_group`
in each of the modes `r`, `r+`, `a`, `w-` and `x`. -/
theorem c7_contains_array_blocks_group_open (s : Store) :
    (∀ p ro, contains_array s p = true → group_open s p ro = .error .valueError) ∧
    (contains_array s "" = true →
      group_factory s false = (s, .error .valueError) ∧
      open_group s .r = (s, .error .valueError) ∧
      open_group s .rp = (s, .error .valueError) ∧
      open_group s .a = (s, .error .valueError) ∧
      open_group s .wm = (s, .error .valueError) ∧
      open_group s .x = (s, .error .valueError)) := by
  constructor
  · intro p ro h
    simp [group_open, contains_array_norm, h]
  · intro h
    refine ⟨by simp [group_factory, h], ?_, ?_, ?_, ?_, ?_⟩ <;> simp [open_group, h]

/-- Witness for C7 at a store whose root is an array. -/
theorem c7_contains_array_blocks_group_open_witness :
    group_open [(".zarray", StoreVal.arrayMeta [1] Dtype.i8)] "" true =
        .error .valueError ∧
    open_group [(".zarray", StoreVal.arrayMeta [1] Dtype.i8)] .r =
        ([(".zarray", StoreVal.arrayMeta [1] Dtype.i8)], .error .valueError) :=
  have h := c7_contains_array_blocks_group_open [(".zarray", StoreVal.arrayMeta [1] Dtype.i8)]
  ⟨h.1 "" true (by decide), (h.2 (by decide)).2.1⟩

/-! ### Lookup dispatch on node kind (claim C3) -/

/-- C3: node lookup dispatches on node kind.  `Group.__getitem__` returns an array handle
when the resolved path contains an array, a group handle when it contains a group, and
raises `KeyError` when the path is absent; `open_auto` returns an array when the store
opens as a v3 array, a group when it opens as a v3 group, and fails with `KeyError` when
neither exists. -/
theorem c3_lookup_dispatch (g : ZGroup) (s : Store) (item : String) (sh : List Nat)
    (dt : Dtype) :
    (storeGet s (arrayKeyOf (normalize_storage_path (item_path g item))) =
        some (.arrayMeta sh dt) →
      getitem g s item =
        .ok (.arr { path := normalize_storage_path (item_path g item),
                    readonly := g.readonly, shape := sh, dtype := dt })) ∧
    (contains_array s (item_path g item) = false →
      contains_group s (item_path g item) = true →
      getitem g s item =
        .ok (.grp { path := normalize_storage_path (item_path g item),
                    readonly := g.readonly })) ∧
    (contains_array s (item_path g item) = false →
      contains_group s (item_path g item) = false →
      getitem g s item = .error .keyError) ∧
    (storeGet s (v3_meta_key_of "") = some (.arrayMeta sh dt) →
      open_auto s =
        .ok (.arr { path := normalize_storage_path "", readonly := false,
                    shape := sh, dtype := dt })) ∧
    (storeGet s (v3_meta_key_of "") = some .groupMeta →
      open_auto s = .ok (.grp { path := normalize_storage_path "", readonly := false })) ∧
    (storeGet s (v3_meta_key_of "") = none → open_auto s = .error .keyError) := by
  refine ⟨?_, ?_, ?_, ?_, ?_, ?_⟩
  · intro h
    have hca : contains_array s (item_path g item) = true := by
      unfold contains_array
      rw [h]
      rfl
    simp [getitem, hca, zarray_open, h, Except.map]
  · intro hca hcg
    simp [getitem, hca, hcg, group_open, contains_array_norm, contains_group_norm,
      Except.map]
  · intro hca hcg
    simp [getitem, hca, hcg]
  · intro h
    simp [open_auto, v3_array_open, h]
  · intro h
    simp [open_auto, v3_array_open, v3_group_open, h, Except.map]
  · intro h
    simp [open_auto, v3_array_open, v3_group_open, h, Except.map]

/-- Witness for C3 at concrete stores for the array, group and absent cases. -/
theorem c3_lookup_dispatch_witness :
    getitem ⟨"", false⟩ [("foo/.zarray", StoreVal.arrayMeta [3] Dtype.f64)] "foo" =
        .ok (.arr { path := "foo", readonly := false, shape := [3], dtype := .f64 }) ∧
    open_auto [("zarr.json", StoreVal.groupMeta)] =
        .ok (.grp { path := "", readonly := false }) :=
  ⟨(c3_lookup_dispatch ⟨"", false⟩ [("foo/.zarray", StoreVal.arrayMeta [3] Dtype.f64)]
      "foo" [3] .f64).1 (by decide),
   (c3_lookup_dispatch ⟨"", false⟩ [("zarr.json", StoreVal.groupMeta)] "x" [3]
      .f64).2.2.2.2.1 (by decide)⟩

/-! ### Read-only flag propagation (claim C8) -/

theorem group_open_ok_readonly {s : Store} {p : String} {ro : Bool} {h : ZGroup}
    (heq : group_open s p ro = .ok h) : h.readonly = ro := by
  simp only [group_open] at heq
  split at heq
  · cases heq
  · split at heq
    · injection heq with h1
      rw [← h1]
    · cases heq

theorem zarray_open_ok_readonly {s : Store} {p : String} {ro : Bool} {a : ZArray}
    (heq : zarray_open s p ro = .ok a) : a.readonly = ro := by
  simp only [zarray_open] at heq
  split at heq
  · injection heq with h1
    rw [← h1]
  · cases heq

theorem mapME_ok_mem {α β : Type _} {l : List α} {f : α → Except Err β} {out : List β}
    (h : mapME l f = .ok out) : ∀ y ∈ out, ∃ x ∈ l, f x = .ok y := by
  induction l generalizing out with
  | nil =>
    simp only [mapME] at h
    injection h with h1
    subst h1
    simp
  | cons x xs ih =>
    simp only [mapME] at h
    split at h
    next e hfx => cases h
    next y hfx =>
      split at h
      next e2 hys => cases h
      next ys hys =>
        injection h with h1
        subst h1
        intro z hz
        rcases List.mem_cons.mp hz with rfl | hz'
        · exact ⟨x, List.mem_cons_self x xs, hfx⟩
        · obtain ⟨x', hx', hfx'⟩ := ih hys z hz'
          exact ⟨x', List.mem_cons_of_mem x hx', hfx'⟩

/-- C8: the read-only flag propagates to every derived handle: array and group handles
produced by `__getitem__`, `groups()`, `arrays()`, `create_group` and `require_group`
carry exactly the parent handle's flag. -/
theorem c8_readonly_propagates (g : ZGroup) (s : Store) (item : String) :
    (∀ a, getitem g s item = .ok (.arr a) → a.readonly = g.readonly) ∧
    (∀ h, getitem g s item = .ok (.grp h) → h.readonly = g.readonly) ∧
    (∀ l, groups_fn g s = .ok l → ∀ x ∈ l, x.2.readonly = g.readonly) ∧
    (∀ l, arrays_fn g s = .ok l → ∀ x ∈ l, x.2.readonly = g.readonly) ∧
    (∀ s' h, create_group g s item = (s', .ok h) → h.readonly = g.readonly) ∧
    (∀ s' h, require_group g s item = (s', .ok h) → h.readonly = g.readonly) := by
  refine ⟨?_, ?_, ?_, ?_, ?_, ?_⟩
  · intro a heq
    simp only [getitem] at heq
    split at heq
    · rcases hz : zarray_open s (item_path g item) g.readonly with e | a'
      · rw [hz] at heq
        cases heq
      · rw [hz] at heq
        simp only [Except.map] at heq
        injection heq with h1
        injection h1 with h1
        rw [← h1]
        exact zarray_open_ok_readonly hz
    · split at heq
      · rcases hz : group_open s (item_path g item) g.readonly with e | h'
        · rw [hz] at heq
          cases heq
        · rw [hz] at heq
          simp only [Except.map] at heq
          cases heq
      · cases heq
  · intro h heq
    simp only [getitem] at heq
    split at heq
    · rcases hz : zarray_open s (item_path g item) g.readonly with e | a'
      · rw [hz] at heq
        cases heq
      · rw [hz] at heq
        simp only [Except.map] at heq
        cases heq
    · split at heq
      · rcases hz : group_open s (item_path g item) g.readonly with e | h'
        · rw [hz] at heq
          cases heq
        · rw [hz] at heq
          simp only [Except.map] at heq
          injection heq with h1
          injection h1 with h1
          rw [← h1]
          exact group_open_ok_readonly hz
      · cases heq
  · intro l heq x hx
    obtain ⟨key, hkey, hf⟩ := mapME_ok_mem heq x hx
    rcases hz : group_open s (g.path ++ "/" ++ key) g.readonly with e | h'
    · rw [hz] at hf
      cases hf
    · rw [hz] at hf
      simp only [Except.map] at hf
      injection hf with h1
      rw [← h1]
      exact group_open_ok_readonly hz
  · intro l heq x hx
    obtain ⟨key, hkey, hf⟩ := mapME_ok_mem heq x hx
    rcases hz : zarray_open s (g.path ++ "/" ++ key) g.readonly with e | a'
    · rw [hz] at hf
      cases hf
    · rw [hz] at hf
      simp only [Except.map] at hf
      injection hf with h1
      rw [← h1]
      exact zarray_open_ok_readonly hz
  · intro s' h heq
    simp only [create_group] at heq
    split at heq
    · injection heq with h1 h2
      cases h2
    · split at heq
      · injection heq with h1 h2
        cases h2
      · split at heq
        · injection heq with h1 h2
          cases h2
        · split at heq
          · injection heq with h1 h2
            cases h2
          · split at heq
            next h' hgo =>
              injection heq with h1 h2
              injection h2 with h2
              rw [← h2]
              exact group_open_ok_readonly hgo
            next e hgo =>
              injection heq with h1 h2
              cases h2
  · intro s' h heq
    simp only [require_group] at heq
    split at heq
    · injection heq with h1 h2
      cases h2
    · split at heq
      next h' hgo =>
        injection heq with h1 h2
        injection h2 with h2
        rw [← h2]
        exact group_open_ok_readonly hgo
      next e hgo =>
        injection heq with h1 h2
        cases h2

/-- Witness for C8: a member array handle obtained from a read-only root carries the
read-only flag. -/
theorem c8_readonly_propagates_witness :
    (ZArray.mk "foo" true [3] Dtype.f64).readonly = true :=
  (c8_readonly_propagates ⟨"", true⟩ [("foo/.zarray", StoreVal.arrayMeta [3] Dtype.f64)]
      "foo").1 ⟨"foo", true, [3], .f64⟩ (by decide)

/-! ### The lexicographic listing order (claims C4 and C10) -/

theorem charListLe_total : ∀ a b : List Char, charListLe a b = true ∨ charListLe b a = true
  | [], _ => Or.inl rfl
  | _ :: _, [] => Or.inr rfl
  | a :: as, b :: bs => by
    by_cases hab : a = b
    · subst hab
      simp only [charListLe, if_pos rfl]
      exact charListLe_total as bs
    · rcases lt_or_gt_of_ne hab with h | h
      · left
        rw [charListLe, if_neg hab]
        exact decide_eq_true h
      · right
        rw [charListLe, if_neg (fun hba : b = a => hab hba.symm)]
        exact decide_eq_true h

theorem charListLe_trans : ∀ a b c : List Char, charListLe a b = true →
    charListLe b c = true → charListLe a c = true
  | [], _, _, _, _ => rfl
  | _ :: _, [], _, h1, _ => by cases h1
  | _ :: _, _ :: _, [], _, h2 => by cases h2
  | a :: as, b :: bs, c :: cs, h1, h2 => by
    by_cases hab : a = b
    · subst hab
      rw [charListLe, if_pos rfl] at h1
      by_cases hbc : a = c
      · subst hbc
        rw [charListLe, if_pos rfl] at h2 ⊢
        exact charListLe_trans as bs cs h1 h2
      · rw [charListLe, if_neg hbc] at h2 ⊢
        exact h2
    · rw [charListLe, if_neg hab] at h1
      have hlt1 : a < b := of_decide_eq_true h1
      by_cases hbc : b = c
      · subst hbc
        rw [charListLe, if_neg hab]
        exact h1
      · rw [charListLe, if_neg hbc] at h2
        have hlt2 : b < c := of_decide_eq_true h2
        have hac : a < c := lt_trans hlt1 hlt2
        rw [charListLe, if_neg (ne_of_lt hac)]
        exact decide_eq_true hac

theorem charListLe_antisymm : ∀ a b : List Char, charListLe a b = true →
    charListLe b a = true → a = b
  | [], [], _, _ => rfl
  | [], _ :: _, _, h2 => by cases h2
  | _ :: _, [], h1, _ => by cases h1
  | a :: as, b :: bs, h1, h2 => by
    by_cases hab : a = b
    · subst hab
      rw [charListLe, if_pos rfl] at h1 h2
      rw [charListLe_antisymm as bs h1 h2]
    · rw [charListLe, if_neg hab] at h1
      rw [charListLe, if_neg (fun h => hab h.symm)] at h2
      have hlt1 : a < b := of_decide_eq_true h1
      have hlt2 : b < a := of_decide_eq_true h2
      exact absurd hlt2 (not_lt_of_gt hlt1)

instance : IsTotal String (fun a b => strLe a b = true) :=
  ⟨fun a b => charListLe_total a.data b.data⟩

instance : IsTrans String (fun a b => strLe a b = true) :=
  ⟨fun a b c h1 h2 => charListLe_trans a.data b.data c.data h1 h2⟩

instance : IsAntisymm String (fun a b => strLe a b = true) :=
  ⟨fun a b h1 h2 => str_ext (charListLe_antisymm a.data b.data h1 h2)⟩

theorem listdir_nodup (s : Store) (p : String) : (listdir s p).Nodup := by
  unfold listdir
  exact List.nodup_dedup _

/-- C4: `group_keys` and `array_keys` yield child names sorted in the lexicographic
string order; on an unchanged store repeated calls return identical orderings; and for a
root group whose children were created in the order `foo`, `bar`, `baz`, `group_keys`
yields `["bar", "baz", "foo"]`. -/
theorem c4_listing_order (g : ZGroup) (s : Store) :
    List.Sorted (fun a b => strLe a b = true) (group_keys g s) ∧
    List.Sorted (fun a b => strLe a b = true) (array_keys g s) ∧
    (∀ s2, s2 = s → group_keys g s2 = group_keys g s ∧ array_keys g s2 = array_keys g s) ∧
    (let s0 := (group_factory [] false).1
     let s1 := (create_group ⟨"", false⟩ s0 "foo").1
     let s2 := (create_group ⟨"", false⟩ s1 "bar").1
     let s3 := (create_group ⟨"", false⟩ s2 "baz").1
     (group_factory [] false).2 = .ok ⟨"", false⟩ ∧
     (create_group ⟨"", false⟩ s0 "foo").2 = .ok ⟨"foo", false⟩ ∧
     (create_group ⟨"", false⟩ s1 "bar").2 = .ok ⟨"bar", false⟩ ∧
     (create_group ⟨"", false⟩ s2 "baz").2 = .ok ⟨"baz", false⟩ ∧
     group_keys ⟨"", false⟩ s3 = ["bar", "baz", "foo"]) := by
  refine ⟨?_, ?_, ?_, ?_⟩
  · exact List.Pairwise.filter _
      (List.sorted_insertionSort (fun a b => strLe a b = true) (listdir s g.path))
  · exact List.Pairwise.filter _
      (List.sorted_insertionSort (fun a b => strLe a b = true) (listdir s g.path))
  · intro s2 hs2
    rw [hs2]
    exact ⟨rfl, rfl⟩
  · decide

/-- C10: group membership iteration is coherent with the kind-filtered listings:
`__iter__` yields exactly the lexicographically sorted, duplicate-free union of
`group_keys()` and `array_keys()`, and `__len__` counts the names `__iter__` yields. -/
theorem c10_iter_is_sorted_union (g : ZGroup) (s : Store) :
    group_iter g s = List.insertionSort (fun a b => strLe a b = true)
        ((group_keys g s ++ array_keys g s).dedup) ∧
    group_len g s = (group_iter g s).length := by
  constructor
  · have hLnd : (List.insertionSort (fun a b => strLe a b = true)
        (listdir s g.path)).Nodup :=
      ((List.perm_insertionSort (fun a b => strLe a b = true)
        (listdir s g.path)).nodup_iff).mpr (listdir_nodup s g.path)
    have hLsort := List.sorted_insertionSort (fun a b => strLe a b = true)
      (listdir s g.path)
    have hlnd : (group_iter g s).Nodup := List.Nodup.filter _ hLnd
    have hlsort : List.Sorted (fun a b => strLe a b = true) (group_iter g s) :=
      List.Pairwise.filter _ hLsort
    have hrnd : (List.insertionSort (fun a b => strLe a b = true)
        ((group_keys g s ++ array_keys g s).dedup)).Nodup :=
      ((List.perm_insertionSort (fun a b => strLe a b = true) _).nodup_iff).mpr
        (List.nodup_dedup _)
    have hrsort := List.sorted_insertionSort (fun a b => strLe a b = true)
      ((group_keys g s ++ array_keys g s).dedup)
    have hmem : ∀ x, x ∈ group_iter g s ↔
        x ∈ List.insertionSort (fun a b => strLe a b = true)
          ((group_keys g s ++ array_keys g s).dedup) := by
      intro x
      rw [(List.perm_insertionSort (fun a b => strLe a b = true)
        ((group_keys g s ++ array_keys g s).dedup)).mem_iff]
      rw [List.mem_dedup, List.mem_append]
      unfold group_iter group_keys array_keys
      rw [List.mem_filter, List.mem_filter, List.mem_filter]
      rw [Bool.or_eq_true]
      tauto
    exact List.eq_of_perm_of_sorted
      ((List.perm_ext_iff_of_nodup hlnd hrnd).mpr hmem) hlsort hrsort
  · have hsum : ∀ l : List String, (l.map (fun _ => (1 : Nat))).sum = l.length := by
      intro l
      induction l with
      | nil => rfl
      | cons x xs ih => simp [ih, Nat.add_comm]
    exact hsum (group_iter g s)

/-! ### require_dataset compatibility checking (claim C9) -/

/-- C9: `require_dataset` on a path that holds an array returns a handle to that array
exactly when the requested shape equals the stored shape after shape normalization and
the requested dtype is compatible — equal when `exact=True`, safely castable to the
stored dtype (`np.can_cast`, taken as a parameter) when `exact=False`; any mismatch
raises `TypeError` and leaves the store unchanged.  When the path holds no array the call
delegates to `create_dataset`. -/
theorem c9_require_dataset_checks (canCast : Dtype → Dtype → Bool) (g : ZGroup)
    (s : Store) (name : String) (shape : ShapeArg) (dtype : Dtype) (exact : Bool)
    (ash : List Nat) (adt : Dtype) :
    (storeGet s (arrayKeyOf (normalize_storage_path (item_path g name))) =
        some (.arrayMeta ash adt) →
      (normalize_shape shape ≠ ash →
        require_dataset canCast g s name shape dtype exact = (s, .error .typeError)) ∧
      (normalize_shape shape = ash → exact = true → dtype ≠ adt →
        require_dataset canCast g s name shape dtype exact = (s, .error .typeError)) ∧
      (normalize_shape shape = ash → exact = true → dtype = adt →
        require_dataset canCast g s name shape dtype exact =
          (s, .ok { path := normalize_storage_path (item_path g name),
                    readonly := g.readonly, shape := ash, dtype := adt })) ∧
      (normalize_shape shape = ash → exact = false → canCast dtype adt = false →
        require_dataset canCast g s name shape dtype exact = (s, .error .typeError)) ∧
      (normalize_shape shape = ash → exact = false → canCast dtype adt = true →
        require_dataset canCast g s name shape dtype exact =
          (s, .ok { path := normalize_storage_path (item_path g name),
                    readonly := g.readonly, shape := ash, dtype := adt }))) ∧
    (contains_array s (item_path g name) = false →
      require_dataset canCast g s name shape dtype exact =
        create_dataset g s name shape dtype) := by
  constructor
  · intro h
    have hca : contains_array s (item_path g name) = true := by
      unfold contains_array
      rw [h]
      rfl
    refine ⟨?_, ?_, ?_, ?_, ?_⟩
    · intro hsh
      simp [require_dataset, hca, zarray_open, h, hsh]
    · intro hsh hex hdt
      simp [require_dataset, hca, zarray_open, h, hsh, hex, hdt]
    · intro hsh hex hdt
      simp [require_dataset, hca, zarray_open, h, hsh, hex, hdt]
    · intro hsh hex hcc
      simp [require_dataset, hca, zarray_open, h, hsh, hex, hcc]
    · intro hsh hex hcc
      simp [require_dataset, hca, zarray_open, h, hsh, hex, hcc]
  · intro hca
    simp [require_dataset, hca]

/-- Witness for C9: a matching request returns the existing array handle; a dtype
mismatch under `exact` raises `TypeError`. -/
theorem c9_require_dataset_checks_witness :
    require_dataset (fun a b => decide (a = b)) ⟨"", false⟩
        [("foo/.zarray", StoreVal.arrayMeta [3] Dtype.f64)] "foo" (.one 3) .f64 true =
      ([("foo/.zarray", StoreVal.arrayMeta [3] Dtype.f64)],
        .ok { path := "foo", readonly := false, shape := [3], dtype := .f64 }) ∧
    require_dataset (fun a b => decide (a = b)) ⟨"", false⟩
        [("foo/.zarray", StoreVal.arrayMeta [3] Dtype.f64)] "foo" (.one 3) .i32 true =
      ([("foo/.zarray", StoreVal.arrayMeta [3] Dtype.f64)], .error .typeError) :=
  ⟨(((c9_require_dataset_checks (fun a b => decide (a = b)) ⟨"", false⟩
      [("foo/.zarray", StoreVal.arrayMeta [3] Dtype.f64)] "foo" (.one 3) .f64 true [3]
      .f64).1 (by decide)).2.2.1) (by decide) rfl rfl,
   (((c9_require_dataset_checks (fun a b => decide (a = b)) ⟨"", false⟩
      [("foo/.zarray", StoreVal.arrayMeta [3] Dtype.f64)] "foo" (.one 3) .i32 true [3]
      .f64).1 (by decide)).2.1) (by decide) rfl (by decide)⟩
